import Mathlib

/-!
Shallow embedding of the core RAG pipeline of the Customer_support_app
backend (vector-store querying, multi-collection retrieval fusion, id
deduplication, citation extraction, fallback text splitting, and query
parameter resolution), together with theorems settling the specification
claims about it.

Python floats are modelled as rationals, Python strings as Lean strings
(lists of characters where character-level work is needed), Python
exceptions as `Option`-valued outcomes, and the stable `list.sort` as a
stable insertion sort.
-/

/-- Python value appearing in a metadata field such as `page`: either
`None`, a string, or an int.  Needed because the code both tests the
truthiness of pages (`page if page else None`) and compares pages with
Python `==`. -/
inductive PyVal where
  | vnone : PyVal
  | vstr (s : String) : PyVal
  | vint (n : Int) : PyVal
deriving DecidableEq

/-- Python truthiness of a `PyVal`: `None` is falsy, a string is truthy iff
non-empty, an int is truthy iff non-zero. -/
def pyTruthy : PyVal → Bool
  | PyVal.vnone => false
  | PyVal.vstr s => !(s == ("" : String))
  | PyVal.vint n => !(n == 0)

/-- Python `==` on such values: values of different types are unequal
(in particular `None == ""` and `None == 0` are `False`). -/
def pyEqB : PyVal → PyVal → Bool
  | PyVal.vnone, PyVal.vnone => true
  | PyVal.vstr s, PyVal.vstr t => s == t
  | PyVal.vint m, PyVal.vint n => m == n
  | _, _ => false

/-- Rendering of a `PyVal` inside an f-string. -/
def pyStr : PyVal → String
  | PyVal.vnone => "None"
  | PyVal.vstr s => s
  | PyVal.vint n => toString n

/-- Metadata dictionary of a retrieved document, restricted to the keys the
pipeline reads.  Each field holds the value `metadata.get(key, default)`
returns, so an absent key is represented by the corresponding default
(`"Unknown"` for `source`, `""` for `page` and `source_type`).  The
`collection` field models the key written by the fusion engine; `none`
means the key is absent. -/
structure DocMeta where
  source : String := "Unknown"
  page : PyVal := PyVal.vstr ""
  source_type : String := ""
  collection : Option String := none
deriving DecidableEq

/-- A retrieval result `{content, metadata, similarity}` as produced by
`VectorStoreService.query`. -/
structure Doc where
  content : String
  metadata : DocMeta
  similarity : ℚ
deriving DecidableEq

/-- Metadata of a citation as built by `LLMService._process_response`:
exactly the keys `source`, `page`, `source_type`. -/
structure CitationMeta where
  source : String
  page : PyVal
  source_type : String
deriving DecidableEq

/-- A citation `{content, metadata, similarity}` returned in the `sources`
list of a response. -/
structure Citation where
  content : String
  metadata : CitationMeta
  similarity : ℚ
deriving DecidableEq

/-- A response `{text, sources}` of the answer synthesizer. -/
structure Response where
  text : String
  sources : List Citation
deriving DecidableEq

/-- Descending-similarity ordering used by `list.sort(key=..., reverse=True)`. -/
def simGE (a b : Doc) : Prop := b.similarity ≤ a.similarity

instance : DecidableRel simGE := fun a b => inferInstanceAs (Decidable (b.similarity ≤ a.similarity))

instance : IsTotal Doc simGE := ⟨fun a b => le_total b.similarity a.similarity⟩

instance : IsTrans Doc simGE := ⟨fun _ _ _ h h2 => le_trans h2 h⟩

/-- CPython `list.sort(key=lambda x: x.get("similarity", 0), reverse=True)`
is a stable descending sort; all stable sorts agree, so a stable insertion
sort is a faithful model. -/
def sortBySimDesc (l : List Doc) : List Doc := List.insertionSort simGE l

namespace VectorStoreService

/-- Shape of the dictionary ChromaDB returns from `collection.query`:
parallel outer lists (one inner list per query text) of documents,
metadatas and cosine distances. -/
structure RawResults where
  documents : List (List String)
  metadatas : List (List DocMeta)
  distances : List (List ℚ)
deriving DecidableEq

/-- Result-processing part of `VectorStoreService.query` (lines 179-208):
guard on `documents`/`documents[0]`, then guard all three first rows, then
`zip` them, convert each distance `d` to `similarity = 1 - d`, and keep a
row iff `similarity >= threshold`. -/
def processRaw (raw : RawResults) (threshold : ℚ) : List Doc :=
  match raw.documents with
  | [] => []
  | d0 :: _ =>
    if d0 = [] then []
    else
      match raw.metadatas, raw.distances with
      | m0 :: _, t0 :: _ =>
        if m0 = [] ∨ t0 = [] then []
        else
          (d0.zip (m0.zip t0)).filterMap (fun x =>
            if threshold ≤ 1 - x.2.2 then
              some ⟨x.1, x.2.1, 1 - x.2.2⟩
            else none)
      | _, _ => []

/-- `VectorStoreService.query` (lines 155-212).  The outcome of talking to
the index is an input: `none` models any exception raised while embedding
the query or querying the collection (caught by the `except` clause, which
returns `[]`), `some raw` models a successful reply.  `top_k` is the
`n_results` sent to the index; it does not otherwise affect processing. -/
def query (outcome : Option RawResults) (top_k : Nat) (threshold : ℚ) : List Doc :=
  match outcome with
  | none => []
  | some raw => processRaw raw threshold

/-- Reply of ChromaDB for a query against an existing but empty collection:
one empty row per component. -/
def emptyRaw : RawResults := ⟨[[]], [[]], [[]]⟩

end VectorStoreService

namespace RetrievalService

/-- Stamping `result["metadata"]["collection"] = collection_name` done by
the multi-collection retrieval loop. -/
def stamp (c : String) (d : Doc) : Doc :=
  { d with metadata := { d.metadata with collection := some c } }

/-- `RetrievalService.retrieve` (lines 24-53): delegate to the vector
store.  `env` gives, per collection name, the outcome of the underlying
index query for the fixed query text and `top_k`. -/
def retrieve (env : String → Option VectorStoreService.RawResults)
    (top_k : Nat) (threshold : ℚ) (collection_name : String) : List Doc :=
  VectorStoreService.query (env collection_name) top_k threshold

/-- `RetrievalService.retrieve_multi_collection` (lines 99-145): query each
named collection with the same `top_k`/`threshold`, stamp each result's
metadata with the collection name, concatenate, sort by similarity
descending, truncate to `top_k` overall. -/
def retrieve_multi_collection (env : String → Option VectorStoreService.RawResults)
    (collections : List String) (top_k : Nat) (threshold : ℚ) : List Doc :=
  let all_results := collections.flatMap
    (fun c => (retrieve env top_k threshold c).map (stamp c))
  let sorted := sortBySimDesc all_results
  if sorted.length > top_k then sorted.take top_k else sorted

end RetrievalService

namespace VectorDatabase

/-- The id used for the `k`-th repeated occurrence: `f"{doc_id}_{count}"`. -/
def suffix_id (x : String) (k : Nat) : String := x ++ ("_") ++ Nat.repr k

/-- Update of the Python dict `id_counts`. -/
def updCount (f : String → Option Nat) (x : String) (k : Nat) : String → Option Nat :=
  fun y => if y = x then some k else f y

/-- The deduplication loop of `VectorDatabase.add_documents` (lines 84-93):
on first sight an id is kept and its count set to 0; on a repeat the count
is incremented and appended as a suffix. -/
def make_unique_go (f : String → Option Nat) : List String → List String
  | [] => []
  | x :: rest =>
    match f x with
    | some k => suffix_id x (k + 1) :: make_unique_go (updCount f x (k + 1)) rest
    | none => x :: make_unique_go (updCount f x 0) rest

/-- Ids actually passed to `collection.add` by `VectorDatabase.add_documents`
(lines 75-101): left unchanged when already distinct
(`len(ids) == len(set(ids))`), otherwise run through the suffixing loop.
Ids already stored in the collection are never consulted. -/
def add_documents_ids (ids : List String) : List String :=
  if ids.Nodup then ids else make_unique_go (fun _ => none) ids

/-- The id emitted for an occurrence of `x` whose running count is `k`:
the bare id for the first occurrence, a suffixed id afterwards. -/
def encId (x : String) (k : Nat) : String := if k = 0 then x else suffix_id x k

/-- The `id_counts` dictionary determined by an already-processed prefix
`P`: absent if `x` never occurred, otherwise occurrences minus one. -/
def countsF (P : List String) : String → Option Nat :=
  fun x => if P.count x = 0 then none else some (P.count x - 1)

/-- Occurrence-indexed characterisation of the dedup loop: each id is
encoded with the number of its previous occurrences. -/
def spec_ids : List String → List String → List String
  | [], _ => []
  | x :: rest, P => encId x (P.count x) :: spec_ids rest (P ++ [x])

end VectorDatabase

namespace LLMService

/-- Left-to-right replacement of non-overlapping occurrences of a pattern,
as Python `str.replace` does.  `fuel` only bounds the recursion and is
always sufficient at the call site (patterns are non-empty). -/
def replaceGo : Nat → List Char → List Char → List Char → List Char
  | 0, rest, _, _ => rest
  | _ + 1, [], _, _ => []
  | fuel + 1, c :: rest, pat, rep =>
    if pat.isPrefixOf (c :: rest) then
      rep ++ replaceGo fuel ((c :: rest).drop pat.length) pat rep
    else c :: replaceGo fuel rest pat rep

/-- Python `s.replace(pat, rep)` for a non-empty pattern. -/
def pyReplace (s pat rep : String) : String :=
  (replaceGo (s.data.length + 1) s.data pat.data rep.data).asString

/-- Display-name cleanup for non-web sources:
`source.replace("_", " ").replace(".pdf", "").replace(".docx", "")`. -/
def clean_source_name (s : String) : String :=
  pyReplace (pyReplace (pyReplace s ("_") (" ")) (".pdf") ("")) (".docx") ("")

/-- Web-ness test `source_type == "web" or source_type == "web_faq"`. -/
def isWebType (st : String) : Bool := st == "web" || st == "web_faq"

/-- Display source name used both in citations and in dedup keys. -/
def source_name (m : DocMeta) : String :=
  if isWebType m.source_type then m.source else clean_source_name m.source

/-- The positional document marker searched for in the model's answer:
`f"Web Document {i+1}"` for web passages, `f"Document {i+1}"` otherwise. -/
def doc_marker (i : Nat) (m : DocMeta) : String :=
  (if isWebType m.source_type then ("Web Document ") else ("Document ")) ++ Nat.repr (i + 1)

/-- Python substring containment `needle in hay`. -/
def containsSub (hay needle : String) : Bool :=
  hay.data.tails.any (fun t => needle.data.isPrefixOf t)

/-- The stored page value `page if page else None`. -/
def store_page (p : PyVal) : PyVal := if pyTruthy p then p else PyVal.vnone

/-- The `source_info` dictionary built for a cited document (lines 182-190
and, identically, 211-219). -/
def mk_source_info (d : Doc) : Citation :=
  ⟨d.content, ⟨source_name d.metadata, store_page d.metadata.page, d.metadata.source_type⟩,
    d.similarity⟩

/-- Dedup test of line 191: compares the stored source name and the stored
page of `s` against the candidate's display name and raw page. -/
def dedupMatch (d : Doc) (s : Citation) : Bool :=
  s.metadata.source == source_name d.metadata && pyEqB s.metadata.page d.metadata.page

/-- Marker-detection loop of `_process_response` (lines 165-192) over the
enumerated context, carrying the `sources` accumulator. -/
def cited_loop (resp : String) : List (Nat × Doc) → List Citation → List Citation
  | [], acc => acc
  | (i, d) :: rest, acc =>
    if containsSub resp (doc_marker i d.metadata) then
      if acc.any (dedupMatch d) then cited_loop resp rest acc
      else cited_loop resp rest (acc ++ [mk_source_info d])
    else cited_loop resp rest acc

/-- The `sources` list computed by `LLMService._process_response`
(lines 150-225): marker scan first; if it found nothing and context is
non-empty, fall back to the top two context entries by similarity. -/
def process_response_sources (resp : String) (context : List Doc) : List Citation :=
  let sources := cited_loop resp context.enum []
  if sources.isEmpty && !context.isEmpty then
    ((sortBySimDesc context).take 2).map mk_source_info
  else sources

/-- `LLMService._process_response`: the response text together with the
extracted sources. -/
def process_response (resp : String) (context : List Doc) : Response :=
  ⟨resp, process_response_sources resp context⟩

/-- `LLMService._generate_dont_know_response` (lines 227-240). -/
def dont_know_response : Response := ⟨"I Don\x27t Know.", []⟩

/-- One block of `LLMService._format_context` (lines 90-109). -/
def format_context_one (i : Nat) (d : Doc) : String :=
  let m := d.metadata
  let header :=
    if isWebType m.source_type then
      ("[Web Document ") ++ Nat.repr (i + 1) ++ (": ") ++ m.source ++ ("]")
    else
      let sn := clean_source_name m.source
      if pyTruthy m.page then
        ("[Document ") ++ Nat.repr (i + 1) ++ (": ") ++ sn ++ (" (Page ") ++ pyStr m.page ++ (")]")
      else
        ("[Document ") ++ Nat.repr (i + 1) ++ (": ") ++ sn ++ ("]")
  header ++ ("\n") ++ d.content ++ ("\n")

/-- `LLMService._format_context` (lines 78-111). -/
def format_context (context : List Doc) : String :=
  String.intercalate ("\n") (context.enum.map (fun p => format_context_one p.1 p.2))

/-- `LLMService._create_rag_prompt` (lines 113-148), with the two f-string
slots spliced in by concatenation. -/
def create_rag_prompt (query : String) (context : String) : String :=
  ("You are an AI assistant specialized in answering customer support questions about:\n1. Insurance plans and policies based on the America\x27s Choice documents\n2. Angel One\x27s investment, stock market, and brokerage services web contents\n\nYour task is to provide accurate, helpful responses based ONLY on the information in the provided context documents and web contents.\n\nIMPORTANT INSTRUCTIONS:\n1. Base your answers EXCLUSIVELY on the information in the context provided below.\n2. If the information needed to answer the question is not present in the context, respond with \x22I Don\x27t know.\x22\n3. DO NOT make up or infer information that is not explicitly stated in the context.\n4. If multiple documents contain relevant information, cite all of them.\n5. Be concise but thorough in your answers and do not include documets or content you refering to.\n6. Format your response in a clear, readable way. Do NOT use bullet points, asterisks (*), or dashes (-) in your answer. Present the information in plain sentences or a numbered list if needed.\n7. For financial or insurance-specific terms, provide brief explanations if available in the context.\n8. If answering questions about Angel One services, cite the specific web document sources.\n9. If answering insurance questions, specify which insurance document you\x27re using.\n10. If user do not have exact question but close to context then help with relavant context information.\n\nCONTEXT:\n")
    ++ context
    ++ ("\n\nUSER QUESTION:\n") ++ query ++ ("\n\nANSWER:")

/-- `LLMService.generate_response` (lines 33-76).  The generative model is
an oracle `llm` from prompt to answer text; with empty context the fixed
response is returned before any prompt is built or the oracle consulted. -/
def generate_response (llm : String → String) (query : String) (context : List Doc) : Response :=
  if context.isEmpty then dont_know_response
  else process_response (llm (create_rag_prompt query (format_context context))) context

/-- A passage (at enumeration position `i`) whose marker occurs in the
answer text. -/
def found (resp : String) (i : Nat) (d : Doc) : Prop :=
  containsSub resp (doc_marker i d.metadata) = true

instance (resp : String) (i : Nat) (d : Doc) : Decidable (found resp i d) :=
  inferInstanceAs (Decidable (_ = true))

/-- Page values the dedup check handles consistently: truthy, or `None`. -/
def goodPage (p : PyVal) : Prop := pyTruthy p = true ∨ p = PyVal.vnone

instance (p : PyVal) : Decidable (goodPage p) := inferInstanceAs (Decidable (_ ∨ _))

/-- The `(source, page)` key of a citation, the pair the marker path
deduplicates on. -/
def citKey (s : Citation) : String × PyVal := (s.metadata.source, s.metadata.page)

end LLMService

namespace RAGService

/-- Configured default `Settings.RETRIEVAL_TOP_K`. -/
def RETRIEVAL_TOP_K : Int := 5

/-- Configured default `Settings.RETRIEVAL_THRESHOLD`. -/
def RETRIEVAL_THRESHOLD : ℚ := 3 / 5

/-- Python `top_k or settings.RETRIEVAL_TOP_K`: `None` and `0` are falsy. -/
def pyOrInt (v : Option Int) (dflt : Int) : Int :=
  match v with
  | none => dflt
  | some n => if n = 0 then dflt else n

/-- Python `threshold or settings.RETRIEVAL_THRESHOLD`: `None` and `0.0`
are falsy. -/
def pyOrQ (v : Option ℚ) (dflt : ℚ) : ℚ :=
  match v with
  | none => dflt
  | some q => if q = 0 then dflt else q

/-- Python slice `l[:k]` for an arbitrary int `k`. -/
def pySliceTo (k : Int) (l : List Doc) : List Doc :=
  if 0 ≤ k then l.take k.toNat else l.take (l.length - min l.length k.natAbs)

/-- `RAGService.process_query` (lines 119-179).  `retrieveF` abstracts
`self.retrieval_service.retrieve` as a function of query text, resolved
`top_k`, resolved `threshold` and collection name; `llm` abstracts the
generative model. -/
def process_query (retrieveF : String → Int → ℚ → String → List Doc)
    (llm : String → String) (query : String) (include_web : Bool)
    (top_k : Option Int) (threshold : Option ℚ) : Response :=
  let tk := pyOrInt top_k RETRIEVAL_TOP_K
  let th := pyOrQ threshold RETRIEVAL_THRESHOLD
  let context_documents :=
    if include_web then
      let doc_context := retrieveF query tk th ("documents")
      let web_context := retrieveF query tk th ("web_documents")
      let combined_context := sortBySimDesc (doc_context ++ web_context)
      if (combined_context.length : Int) > tk then pySliceTo tk combined_context
      else combined_context
    else retrieveF query tk th ("documents")
  LLMService.generate_response llm query context_documents

end RAGService

namespace TextSplitter

/-- Python `\s` on the ASCII range: space, tab, newline, carriage return,
vertical tab, form feed. -/
def pyWs (c : Char) : Bool :=
  c = (' ') || c = ('\t') || c = ('\n') || c = ('\r') || c = ('\u000B') || c = ('\u000C')

/-- Python `str.strip()`: whitespace removed from both ends. -/
def pyStrip (l : List Char) : List Char :=
  (l.rdropWhile pyWs).dropWhile pyWs

/-- Index of the last newline of a list, if any. -/
def lastNlAux (l : List Char) (i : Nat) (cur : Option Nat) : Option Nat :=
  match l with
  | [] => cur
  | c :: rest => lastNlAux rest (i + 1) (if c = ('\n') then some i else cur)

/-- Index of the last newline of a list, if any. -/
def lastNl (l : List Char) : Option Nat := lastNlAux l 0 none

/-- Scanner for `re.split(r'\n\s*\n', text)`.  A match starts at a newline;
the greedy `\s*` plus backtracking make it end at the last newline of the
whitespace run that follows.  `fuel` only bounds the recursion and is
always sufficient at the call site. -/
def paraSplitGo : Nat → List Char → List Char → List (List Char)
  | 0, acc, rest => [acc.reverse ++ rest]
  | _ + 1, acc, [] => [acc.reverse]
  | fuel + 1, acc, c :: rest =>
    if c = ('\n') then
      let run := rest.takeWhile pyWs
      match lastNl run with
      | none => paraSplitGo fuel (c :: acc) rest
      | some j => acc.reverse :: paraSplitGo fuel [] (run.drop (j + 1) ++ rest.drop run.length)
    else paraSplitGo fuel (c :: acc) rest

/-- `re.split(r'\n\s*\n', text)`. -/
def paraSplit (text : List Char) : List (List Char) :=
  paraSplitGo (text.length + 1) [] text

/-- Sentence-end test for the lookbehind `(?<=[.!?])`. -/
def isSentEnd : Option Char → Bool
  | some c => c = ('.') || c = ('!') || c = ('?')
  | none => false

/-- Scanner for `re.split(r'(?<=[.!?])\s+', paragraph)`: a match is a
maximal whitespace run whose preceding character is `.`, `!` or `?`. -/
def sentSplitGo : Nat → Option Char → List Char → List Char → List (List Char)
  | 0, _, acc, rest => [acc.reverse ++ rest]
  | _ + 1, _, acc, [] => [acc.reverse]
  | fuel + 1, prev, acc, c :: rest =>
    if isSentEnd prev && pyWs c then
      let run := (c :: rest).takeWhile pyWs
      acc.reverse :: sentSplitGo fuel run.getLast? [] ((c :: rest).drop run.length)
    else sentSplitGo fuel (some c) (c :: acc) rest

/-- `re.split(r'(?<=[.!?])\s+', paragraph)`. -/
def sentSplit (p : List Char) : List (List Char) :=
  sentSplitGo (p.length + 1) none [] p

/-- The fixed-width slices `sentence[i:i+max_len]` for
`i in range(0, len(sentence), step)`. -/
def sliceChunks (s : List Char) (max_len step : Nat) : List (List Char) :=
  (List.range ((s.length + step - 1) / step)).map (fun k => (s.drop (k * step)).take max_len)

/-- State of the `_simple_split` loops: accumulated `chunks` and the
`current_chunk` being grown. -/
structure SState where
  chunks : List (List Char)
  cc : List Char

/-- Flush `current_chunk` onto `chunks` if non-empty (`if current_chunk:
chunks.append(current_chunk.strip())`). -/
def flushCC (st : SState) : List (List Char) :=
  if st.cc.isEmpty then st.chunks else st.chunks ++ [pyStrip st.cc]

/-- Body of the inner sentence loop of `_simple_split` (lines 171-184). -/
def sentStep (max_len overlap : Nat) (st : SState) (s : List Char) : SState :=
  if st.cc.length + s.length ≤ max_len then ⟨st.chunks, st.cc ++ s ++ [' ']⟩
  else
    let chunks1 := flushCC st
    if s.length > max_len then ⟨chunks1 ++ sliceChunks s max_len (max_len - overlap), []⟩
    else ⟨chunks1, s ++ [' ']⟩

/-- Body of the outer paragraph loop of `_simple_split` (lines 154-184). -/
def paraStep (max_len overlap : Nat) (st : SState) (p : List Char) : SState :=
  if st.cc.length + p.length ≤ max_len then ⟨st.chunks, st.cc ++ p ++ [('\n'), ('\n')]⟩
  else
    let chunks1 := flushCC st
    if p.length ≤ max_len then ⟨chunks1, p ++ [('\n'), ('\n')]⟩
    else (sentSplit p).foldl (sentStep max_len overlap) ⟨chunks1, []⟩

/-- `TextSplitter._simple_split` (lines 134-190) as called from the
`split_text` fallback, where `max_length` is `None` so `max_len` is the
configured `chunk_size` and `overlap = min(100, max_len // 10)`. -/
def simple_split (chunk_size : Nat) (text : List Char) : List (List Char) :=
  let max_len := chunk_size
  let overlap := min 100 (max_len / 10)
  let final := (paraSplit text).foldl (paraStep max_len overlap) ⟨[], []⟩
  flushCC final

/-- All chunks within the byte budget. -/
def ChunksOk (m : Nat) (cs : List (List Char)) : Prop := ∀ c ∈ cs, c.length ≤ m

/-- Loop invariant of `_simple_split`: all flushed chunks are within
`max_len`, and the stripped current chunk is as well. -/
def InvS (m : Nat) (st : SState) : Prop :=
  ChunksOk m st.chunks ∧ (pyStrip st.cc).length ≤ m

end TextSplitter

/-! Concrete inputs used by the witnesses and counterexamples below. -/

/-- First context passage of the C5 counterexample: source `"a"` with the
falsy (but not `None`) page `""`. -/
def c5cexA : Doc := ⟨("pass one"), { source := ("a"), page := PyVal.vstr "" }, mkRat 4 5⟩

/-- Second context passage of the C5 counterexample, same source and page. -/
def c5cexB : Doc := ⟨("pass two"), { source := ("a"), page := PyVal.vstr "" }, mkRat 7 10⟩

/-- First context passage for the C5 witness. -/
def w5docA : Doc := ⟨("alpha text"), { source := ("alpha"), page := PyVal.vint 1 }, mkRat 4 5⟩

/-- Second context passage for the C5 witness. -/
def w5docB : Doc := ⟨("beta text"), { source := ("beta"), page := PyVal.vint 2 }, mkRat 7 10⟩

/-- First context passage for the C6 witness, similarity `3/4`. -/
def w6docA : Doc := ⟨("doc a"), { source := ("s1") }, mkRat 3 4⟩

/-- Second context passage for the C6 witness, similarity `3/5`. -/
def w6docB : Doc := ⟨("doc b"), { source := ("s2") }, mkRat 3 5⟩

/-- Input text for the C7 counterexample: two whitespace-only paragraphs
followed by `"abc"` (the text `" \n\n \n\nabc"`). -/
def c7Text : List Char := [' ', '\n', '\n', ' ', '\n', '\n', 'a', 'b', 'c']

/-- First context passage for the C10 witness; shares `(source, page)` with
the second. -/
def w10docA : Doc := ⟨("first copy"), { source := ("dup"), page := PyVal.vint 3 }, mkRat 1 2⟩

/-- Second context passage for the C10 witness; shares `(source, page)`
with the first. -/
def w10docB : Doc := ⟨("second copy"), { source := ("dup"), page := PyVal.vint 3 }, mkRat 1 2⟩

/-! Injectivity of the decimal rendering `Nat.repr`, needed to reason about
the id suffixes of `VectorDatabase.add_documents`. -/

/-- Numeric value of a decimal digit character. -/
def digitVal (c : Char) : Nat := c.toNat - 48

/-- Value of a big-endian list of decimal digit characters. -/
def digitsVal (l : List Char) : Nat := l.foldl (fun a c => a * 10 + digitVal c) 0

/-- Big-endian decimal digits of a natural number. -/
def myDigits (n : Nat) : List Char :=
  if _h : n < 10 then [Nat.digitChar n]
  else myDigits (n / 10) ++ [Nat.digitChar (n % 10)]
termination_by n
decreasing_by exact Nat.div_lt_self (by omega) (by omega)

theorem toDigitsCore_eq_myDigits :
    ∀ (f n : Nat) (acc : List Char), n < f →
      Nat.toDigitsCore 10 f n acc = myDigits n ++ acc := by
  intro f
  induction f with
  | zero => intro n acc h; omega
  | succ f ih =>
    intro n acc _h
    have step : Nat.toDigitsCore 10 (f + 1) n acc =
        if n / 10 = 0 then Nat.digitChar (n % 10) :: acc
        else Nat.toDigitsCore 10 f (n / 10) (Nat.digitChar (n % 10) :: acc) := rfl
    by_cases hn : n < 10
    · have hm : n % 10 = n := Nat.mod_eq_of_lt hn
      rw [step, if_pos (by omega : n / 10 = 0), myDigits, dif_pos hn, hm,
        List.singleton_append]
    · have hlt : n / 10 < f := by omega
      rw [step, if_neg (by omega), ih (n / 10) _ hlt]
      conv_rhs => rw [myDigits]
      rw [dif_neg hn, List.append_assoc, List.singleton_append]

theorem digitVal_digitChar (m : Nat) (h : m < 10) : digitVal (Nat.digitChar m) = m := by
  interval_cases m <;> decide

theorem digitsVal_myDigits (n : Nat) : digitsVal (myDigits n) = n := by
  induction n using Nat.strong_induction_on with
  | _ n ih =>
    by_cases h : n < 10
    · rw [myDigits, dif_pos h]
      simp only [digitsVal, List.foldl, Nat.zero_mul, Nat.zero_add]
      exact digitVal_digitChar n h
    · rw [myDigits, dif_neg h]
      have hdiv : n / 10 < n := Nat.div_lt_self (by omega) (by omega)
      have hv := ih (n / 10) hdiv
      simp only [digitsVal, List.foldl_append, List.foldl] at *
      rw [hv, digitVal_digitChar (n % 10) (by omega)]
      omega

theorem natRepr_injective {m n : Nat} (h : Nat.repr m = Nat.repr n) : m = n := by
  have hd := congrArg String.data h
  simp only [Nat.repr, Nat.toDigits, List.asString] at hd
  rw [toDigitsCore_eq_myDigits (m + 1) m [] (by omega),
    toDigitsCore_eq_myDigits (n + 1) n [] (by omega)] at hd
  have h2 : myDigits m = myDigits n := by simpa using hd
  have := congrArg digitsVal h2
  rwa [digitsVal_myDigits, digitsVal_myDigits] at this

namespace VectorDatabase

theorem countsF_append (P : List String) (x : String) :
    updCount (countsF P) x (P.count x) = countsF (P ++ [x]) := by
  funext y
  by_cases hyx : y = x
  · subst hyx
    simp [updCount, countsF, List.count_append, List.count_cons]
  · simp [updCount, hyx, countsF, List.count_append, List.count_cons]

theorem make_unique_go_eq_spec :
    ∀ (ids P : List String), make_unique_go (countsF P) ids = spec_ids ids P := by
  intro ids
  induction ids with
  | nil => intro P; rfl
  | cons x rest ih =>
    intro P
    by_cases h0 : P.count x = 0
    · have hfx : countsF P x = none := by simp [countsF, h0]
      have hupd : updCount (countsF P) x 0 = countsF (P ++ [x]) := by
        have := countsF_append P x
        rwa [h0] at this
      simp only [make_unique_go, hfx, spec_ids, encId, h0, if_pos, hupd, ih]
    · have hfx : countsF P x = some (P.count x - 1) := by simp [countsF, h0]
      have hupd : updCount (countsF P) x (P.count x - 1 + 1) = countsF (P ++ [x]) := by
        have := countsF_append P x
        have hc : P.count x - 1 + 1 = P.count x := by omega
        rwa [← hc] at this
      simp only [make_unique_go, hfx, hupd, ih, spec_ids, encId, h0, if_neg]
      have hc : P.count x - 1 + 1 = P.count x := by omega
      rw [hc]
      simp

theorem spec_ids_length : ∀ (ids P : List String), (spec_ids ids P).length = ids.length := by
  intro ids
  induction ids with
  | nil => intro P; rfl
  | cons x rest ih => intro P; simp [spec_ids, ih]

theorem mem_spec_ids :
    ∀ (ids P : List String) (z : String), z ∈ spec_ids ids P →
      ∃ y k, y ∈ ids ∧ P.count y ≤ k ∧ z = encId y k := by
  intro ids
  induction ids with
  | nil => intro P z h; simp [spec_ids] at h
  | cons x rest ih =>
    intro P z h
    rw [spec_ids, List.mem_cons] at h
    rcases h with h | h
    · exact ⟨x, P.count x, List.mem_cons_self x rest, le_refl _, h⟩
    · obtain ⟨y, k, hy, hk, hz⟩ := ih (P ++ [x]) z h
      refine ⟨y, k, List.mem_cons_of_mem x hy, ?_, hz⟩
      have : P.count y ≤ (P ++ [x]).count y := by
        simp [List.count_append]
      omega

theorem suffix_id_data (x : String) (k : Nat) :
    (suffix_id x k).data = x.data ++ ('_' :: (Nat.repr k).data) := by
  simp [suffix_id, String.data_append]

theorem suffix_id_clash {x y : String} {a b : Nat}
    (h : suffix_id x a = suffix_id y b) :
    x = y ∨ (∃ s, y = x ++ ("_") ++ s) ∨ (∃ s, x = y ++ ("_") ++ s) := by
  have hd := congrArg String.data h
  rw [suffix_id_data, suffix_id_data] at hd
  rcases List.append_eq_append_iff.mp hd with ⟨t, hy, hrest⟩ | ⟨t, hx, hrest⟩
  · cases t with
    | nil =>
      left
      exact (String.ext (by simpa using hy)).symm
    | cons c0 t' =>
      right; left
      refine ⟨t'.asString, String.ext ?_⟩
      simp only [List.cons_append] at hrest
      injection hrest with hc0 _
      subst hc0
      rw [hy]
      simp [String.data_append]
      rfl
  · cases t with
    | nil =>
      left
      exact String.ext (by simpa using hx)
    | cons c0 t' =>
      right; right
      refine ⟨t'.asString, String.ext ?_⟩
      simp only [List.cons_append] at hrest
      injection hrest with hc0 _
      subst hc0
      rw [hx]
      simp [String.data_append]
      rfl

theorem suffix_id_inj_k {x : String} {a b : Nat} (h : suffix_id x a = suffix_id x b) :
    a = b := by
  have hd := congrArg String.data h
  rw [suffix_id_data, suffix_id_data] at hd
  have h2 : (Nat.repr a).data = (Nat.repr b).data :=
    List.cons_injective.eq_iff.mp (List.append_cancel_left hd)
  exact natRepr_injective (String.ext h2)

theorem suffix_id_length (x : String) (k : Nat) :
    (suffix_id x k).length = x.length + 1 + (Nat.repr k).length := by
  simp [suffix_id, String.length_append]
  rfl

theorem encId_inj_k {x : String} {a b : Nat} (h : encId x a = encId x b) : a = b := by
  by_cases ha : a = 0 <;> by_cases hb : b = 0
  · omega
  · unfold encId at h
    rw [if_pos ha, if_neg hb] at h
    have hl := congrArg String.length h
    rw [suffix_id_length] at hl
    omega
  · unfold encId at h
    rw [if_neg ha, if_pos hb] at h
    have hl := congrArg String.length h
    rw [suffix_id_length] at hl
    omega
  · unfold encId at h
    rw [if_neg ha, if_neg hb] at h
    exact suffix_id_inj_k h

theorem encId_eq_cases {x y : String} {a b : Nat} (h : encId x a = encId y b) :
    x = y ∨ (∃ s, y = x ++ ("_") ++ s) ∨ (∃ s, x = y ++ ("_") ++ s) := by
  by_cases ha : a = 0 <;> by_cases hb : b = 0
  · unfold encId at h
    rw [if_pos ha, if_pos hb] at h
    exact Or.inl h
  · unfold encId at h
    rw [if_pos ha, if_neg hb] at h
    right; right
    exact ⟨Nat.repr b, h⟩
  · unfold encId at h
    rw [if_neg ha, if_pos hb] at h
    right; left
    exact ⟨Nat.repr a, h.symm⟩
  · unfold encId at h
    rw [if_neg ha, if_neg hb] at h
    exact suffix_id_clash h

theorem spec_ids_nodup :
    ∀ (ids P : List String),
      (∀ x ∈ ids, ∀ y ∈ ids, ∀ s : String, x ≠ y ++ ("_") ++ s) →
      (spec_ids ids P).Nodup := by
  intro ids
  induction ids with
  | nil => intro P _; exact List.nodup_nil
  | cons x rest ih =>
    intro P H
    rw [spec_ids, List.nodup_cons]
    constructor
    · intro hmem
      obtain ⟨y, k, hy, hk, hz⟩ := mem_spec_ids rest (P ++ [x]) _ hmem
      rcases encId_eq_cases hz with hxy | ⟨s, hs⟩ | ⟨s, hs⟩
      · subst hxy
        have hkk := encId_inj_k hz
        have : (P ++ [x]).count x = P.count x + 1 := by
          simp [List.count_append]
        omega
      · exact H y (List.mem_cons_of_mem x hy) x (List.mem_cons_self x rest) s hs
      · exact H x (List.mem_cons_self x rest) y (List.mem_cons_of_mem x hy) s hs
    · exact ih (P ++ [x])
        (fun a ha b hb s => H a (List.mem_cons_of_mem x ha) b (List.mem_cons_of_mem x hb) s)

end VectorDatabase

namespace LLMService

theorem pyEqB_refl (p : PyVal) : pyEqB p p = true := by
  cases p <;> simp [pyEqB]

theorem pyEqB_store_page {p : PyVal} (h : goodPage p) : pyEqB (store_page p) p = true := by
  rcases h with h | h
  · rw [store_page, if_pos h]
    exact pyEqB_refl p
  · subst h
    rfl

theorem dedupMatch_mk_self {d : Doc} (h : goodPage d.metadata.page) :
    dedupMatch d (mk_source_info d) = true := by
  simp [dedupMatch, mk_source_info, pyEqB_store_page h]

theorem dedupMatch_of_key_eq {d : Doc} {a : Citation} (hgood : goodPage d.metadata.page)
    (h : citKey a = citKey (mk_source_info d)) : dedupMatch d a = true := by
  rw [citKey, citKey, Prod.mk.injEq] at h
  simp only [mk_source_info] at h
  simp [dedupMatch, h.1, h.2, pyEqB_store_page hgood]

theorem cited_loop_acc_prefix (resp : String) :
    ∀ (pairs : List (Nat × Doc)) (acc : List Citation),
      ∃ ext, cited_loop resp pairs acc = acc ++ ext := by
  intro pairs
  induction pairs with
  | nil => intro acc; exact ⟨[], by simp [cited_loop]⟩
  | cons p rest ih =>
    intro acc
    obtain ⟨i, d⟩ := p
    rw [cited_loop]
    by_cases hf : containsSub resp (doc_marker i d.metadata) = true
    · rw [if_pos hf]
      by_cases hdup : acc.any (dedupMatch d) = true
      · rw [if_pos hdup]; exact ih acc
      · rw [if_neg hdup]
        obtain ⟨ext, hext⟩ := ih (acc ++ [mk_source_info d])
        exact ⟨mk_source_info d :: ext, by rw [hext, List.append_assoc]; rfl⟩
    · rw [if_neg hf]; exact ih acc

theorem mem_cited_loop_of_mem_acc {resp : String} {pairs : List (Nat × Doc)}
    {acc : List Citation} {s : Citation} (h : s ∈ acc) : s ∈ cited_loop resp pairs acc := by
  obtain ⟨ext, hext⟩ := cited_loop_acc_prefix resp pairs acc
  rw [hext]
  exact List.mem_append_left _ h

theorem cited_loop_sound (resp : String) :
    ∀ (pairs : List (Nat × Doc)) (acc : List Citation) (s : Citation),
      s ∈ cited_loop resp pairs acc →
      s ∈ acc ∨ ∃ p ∈ pairs, found resp p.1 p.2 ∧ s = mk_source_info p.2 := by
  intro pairs
  induction pairs with
  | nil => intro acc s h; exact Or.inl h
  | cons p rest ih =>
    intro acc s h
    obtain ⟨i, d⟩ := p
    rw [cited_loop] at h
    by_cases hf : containsSub resp (doc_marker i d.metadata) = true
    · rw [if_pos hf] at h
      by_cases hdup : acc.any (dedupMatch d) = true
      · rw [if_pos hdup] at h
        rcases ih acc s h with h2 | ⟨q, hq, hfq, hs⟩
        · exact Or.inl h2
        · exact Or.inr ⟨q, List.mem_cons_of_mem _ hq, hfq, hs⟩
      · rw [if_neg hdup] at h
        rcases ih _ s h with h2 | ⟨q, hq, hfq, hs⟩
        · rcases List.mem_append.mp h2 with h3 | h3
          · exact Or.inl h3
          · refine Or.inr ⟨(i, d), List.mem_cons_self _ _, hf, ?_⟩
            simpa using h3
        · exact Or.inr ⟨q, List.mem_cons_of_mem _ hq, hfq, hs⟩
    · rw [if_neg hf] at h
      rcases ih acc s h with h2 | ⟨q, hq, hfq, hs⟩
      · exact Or.inl h2
      · exact Or.inr ⟨q, List.mem_cons_of_mem _ hq, hfq, hs⟩

theorem cited_loop_complete (resp : String) :
    ∀ (pairs : List (Nat × Doc)) (acc : List Citation) (i : Nat) (d : Doc),
      (i, d) ∈ pairs → goodPage d.metadata.page → found resp i d →
      ∃ s ∈ cited_loop resp pairs acc, dedupMatch d s = true := by
  intro pairs
  induction pairs with
  | nil => intro acc i d h; simp at h
  | cons p rest ih =>
    intro acc i d hmem hgood hfound
    obtain ⟨j, e⟩ := p
    rw [cited_loop]
    rcases List.mem_cons.mp hmem with heq | htail
    · obtain ⟨rfl, rfl⟩ := Prod.mk.injEq .. ▸ heq
      rw [if_pos (show containsSub resp (doc_marker i d.metadata) = true from hfound)]
      by_cases hdup : acc.any (dedupMatch d) = true
      · rw [if_pos hdup]
        obtain ⟨s, hs, hm⟩ := List.any_eq_true.mp hdup
        exact ⟨s, mem_cited_loop_of_mem_acc hs, hm⟩
      · rw [if_neg hdup]
        refine ⟨mk_source_info d, mem_cited_loop_of_mem_acc ?_, dedupMatch_mk_self hgood⟩
        simp
    · by_cases hf : containsSub resp (doc_marker j e.metadata) = true
      · rw [if_pos hf]
        by_cases hdup : acc.any (dedupMatch e) = true
        · rw [if_pos hdup]; exact ih acc i d htail hgood hfound
        · rw [if_neg hdup]; exact ih _ i d htail hgood hfound
      · rw [if_neg hf]; exact ih acc i d htail hgood hfound

theorem cited_loop_of_no_marker (resp : String) :
    ∀ (pairs : List (Nat × Doc)) (acc : List Citation),
      (∀ p ∈ pairs, ¬ found resp p.1 p.2) → cited_loop resp pairs acc = acc := by
  intro pairs
  induction pairs with
  | nil => intro acc _; rfl
  | cons p rest ih =>
    intro acc H
    obtain ⟨i, d⟩ := p
    rw [cited_loop]
    have hnf : ¬ containsSub resp (doc_marker i d.metadata) = true :=
      H (i, d) (List.mem_cons_self _ _)
    rw [if_neg hnf]
    exact ih acc (fun q hq => H q (List.mem_cons_of_mem _ hq))

theorem cited_loop_keys_distinct (resp : String) :
    ∀ (pairs : List (Nat × Doc)) (acc : List Citation),
      (∀ p ∈ pairs, goodPage p.2.metadata.page) →
      acc.Pairwise (fun a b => citKey a ≠ citKey b) →
      (cited_loop resp pairs acc).Pairwise (fun a b => citKey a ≠ citKey b) := by
  intro pairs
  induction pairs with
  | nil => intro acc _ hacc; exact hacc
  | cons p rest ih =>
    intro acc H hacc
    obtain ⟨i, d⟩ := p
    have hgood : goodPage d.metadata.page := H (i, d) (List.mem_cons_self _ _)
    have Hrest : ∀ q ∈ rest, goodPage q.2.metadata.page :=
      fun q hq => H q (List.mem_cons_of_mem _ hq)
    rw [cited_loop]
    by_cases hf : containsSub resp (doc_marker i d.metadata) = true
    · rw [if_pos hf]
      by_cases hdup : acc.any (dedupMatch d) = true
      · rw [if_pos hdup]; exact ih acc Hrest hacc
      · rw [if_neg hdup]
        refine ih _ Hrest ?_
        rw [List.pairwise_append]
        refine ⟨hacc, List.pairwise_singleton _ _, ?_⟩
        intro a ha b hb hkey
        have hb2 : b = mk_source_info d := by simpa using hb
        subst hb2
        have := dedupMatch_of_key_eq hgood hkey
        have hall := List.any_eq_false.mp (Bool.not_eq_true _ ▸ hdup) a ha
        exact absurd this hall
    · rw [if_neg hf]; exact ih acc Hrest hacc

theorem process_sources_eq_loop {resp : String} {ctx : List Doc}
    (h : cited_loop resp ctx.enum [] ≠ []) :
    process_response_sources resp ctx = cited_loop resp ctx.enum [] := by
  rw [process_response_sources]
  have : (cited_loop resp ctx.enum []).isEmpty = false := by
    cases hc : cited_loop resp ctx.enum [] with
    | nil => exact absurd hc h
    | cons a l => rfl
  simp [this]

theorem process_sources_fallback {resp : String} {ctx : List Doc}
    (hloop : cited_loop resp ctx.enum [] = []) (hne : ctx ≠ []) :
    process_response_sources resp ctx = ((sortBySimDesc ctx).take 2).map mk_source_info := by
  rw [process_response_sources, hloop]
  have : ctx.isEmpty = false := by
    cases hc : ctx with
    | nil => exact absurd hc hne
    | cons a l => rfl
  simp [this]

end LLMService

namespace TextSplitter

theorem rdropWhile_append_ws {l w : List Char} (hw : ∀ c ∈ w, pyWs c = true) :
    (l ++ w).rdropWhile pyWs = l.rdropWhile pyWs := by
  unfold List.rdropWhile
  rw [List.reverse_append, List.dropWhile_append_of_pos]
  intro a ha
  exact hw a (List.mem_reverse.mp ha)

theorem length_rdropWhile_le (l : List Char) : (l.rdropWhile pyWs).length ≤ l.length := by
  unfold List.rdropWhile
  rw [List.length_reverse]
  calc (l.reverse.dropWhile pyWs).length ≤ l.reverse.length :=
        (List.dropWhile_sublist _).length_le
    _ = l.length := List.length_reverse l

theorem length_pyStrip_le (l : List Char) : (pyStrip l).length ≤ l.length := by
  unfold pyStrip
  calc ((l.rdropWhile pyWs).dropWhile pyWs).length ≤ (l.rdropWhile pyWs).length :=
        (List.dropWhile_sublist _).length_le
    _ ≤ l.length := length_rdropWhile_le l

theorem length_pyStrip_append_ws {l w : List Char} (hw : ∀ c ∈ w, pyWs c = true) :
    (pyStrip (l ++ w)).length ≤ l.length := by
  unfold pyStrip
  rw [rdropWhile_append_ws hw]
  calc ((l.rdropWhile pyWs).dropWhile pyWs).length ≤ (l.rdropWhile pyWs).length :=
        (List.dropWhile_sublist _).length_le
    _ ≤ l.length := length_rdropWhile_le l

theorem flushCC_ok {m : Nat} {st : SState} (h : InvS m st) : ChunksOk m (flushCC st) := by
  intro c hc
  unfold flushCC at hc
  by_cases he : st.cc.isEmpty
  · rw [if_pos he] at hc
    exact h.1 c hc
  · rw [if_neg he] at hc
    rcases List.mem_append.mp hc with h2 | h2
    · exact h.1 c h2
    · have : c = pyStrip st.cc := by simpa using h2
      rw [this]
      exact h.2

theorem sliceChunks_ok (s : List Char) (m step : Nat) : ChunksOk m (sliceChunks s m step) := by
  intro c hc
  unfold sliceChunks at hc
  obtain ⟨k, _, hk⟩ := List.mem_map.mp hc
  rw [← hk]
  calc ((s.drop (k * step)).take m).length ≤ m := by
        rw [List.length_take]
        exact min_le_left _ _

theorem sentStep_inv {m o : Nat} {st : SState} {s : List Char} (h : InvS m st) :
    InvS m (sentStep m o st s) := by
  unfold sentStep
  by_cases hfit : st.cc.length + s.length ≤ m
  · rw [if_pos hfit]
    refine ⟨h.1, ?_⟩
    have : st.cc ++ s ++ [' '] = (st.cc ++ s) ++ [' '] := by simp
    rw [this]
    calc (pyStrip ((st.cc ++ s) ++ [' '])).length ≤ (st.cc ++ s).length :=
          length_pyStrip_append_ws (by intro c hc; simp at hc; rw [hc]; rfl)
      _ ≤ m := by rw [List.length_append]; exact hfit
  · rw [if_neg hfit]
    by_cases hlong : s.length > m
    · rw [if_pos hlong]
      refine ⟨?_, by simp [pyStrip, List.rdropWhile]⟩
      intro c hc
      rcases List.mem_append.mp hc with h2 | h2
      · exact flushCC_ok h c h2
      · exact sliceChunks_ok s m (m - o) c h2
    · rw [if_neg hlong]
      refine ⟨flushCC_ok h, ?_⟩
      calc (pyStrip (s ++ [' '])).length ≤ s.length :=
            length_pyStrip_append_ws (by intro c hc; simp at hc; rw [hc]; rfl)
        _ ≤ m := by omega

theorem foldl_sentStep_inv {m o : Nat} (ss : List (List Char)) :
    ∀ st : SState, InvS m st → InvS m (ss.foldl (sentStep m o) st) := by
  induction ss with
  | nil => intro st h; exact h
  | cons s rest ih => intro st h; exact ih _ (sentStep_inv h)

theorem paraStep_inv {m o : Nat} {st : SState} {p : List Char} (h : InvS m st) :
    InvS m (paraStep m o st p) := by
  unfold paraStep
  by_cases hfit : st.cc.length + p.length ≤ m
  · rw [if_pos hfit]
    refine ⟨h.1, ?_⟩
    have : st.cc ++ p ++ [('\n'), ('\n')] = (st.cc ++ p) ++ [('\n'), ('\n')] := by simp
    rw [this]
    calc (pyStrip ((st.cc ++ p) ++ [('\n'), ('\n')])).length ≤ (st.cc ++ p).length :=
          length_pyStrip_append_ws (by intro c hc; simp at hc; rw [hc]; rfl)
      _ ≤ m := by rw [List.length_append]; exact hfit
  · rw [if_neg hfit]
    by_cases hshort : p.length ≤ m
    · rw [if_pos hshort]
      refine ⟨flushCC_ok h, ?_⟩
      calc (pyStrip (p ++ [('\n'), ('\n')])).length ≤ p.length :=
            length_pyStrip_append_ws (by intro c hc; simp at hc; rw [hc]; rfl)
        _ ≤ m := hshort
    · rw [if_neg hshort]
      refine foldl_sentStep_inv _ _ ⟨flushCC_ok h, ?_⟩
      simp [pyStrip, List.rdropWhile]

theorem foldl_paraStep_inv {m o : Nat} (ps : List (List Char)) :
    ∀ st : SState, InvS m st → InvS m (ps.foldl (paraStep m o) st) := by
  induction ps with
  | nil => intro st h; exact h
  | cons p rest ih => intro st h; exact ih _ (paraStep_inv h)

theorem simple_split_chunk_le (chunk_size : Nat) (text : List Char) :
    ∀ c ∈ simple_split chunk_size text, c.length ≤ chunk_size := by
  intro c hc
  unfold simple_split at hc
  have hinv : InvS chunk_size ((paraSplit text).foldl
      (paraStep chunk_size (min 100 (chunk_size / 10))) ⟨[], []⟩ ) :=
    foldl_paraStep_inv _ _ ⟨by intro c hc; simp at hc, by simp [pyStrip, List.rdropWhile]⟩
  exact flushCC_ok hinv c hc

end TextSplitter

namespace VectorStoreService

theorem query_some (raw : RawResults) (top_k : Nat) (threshold : ℚ) :
    query (some raw) top_k threshold = processRaw raw threshold := rfl

theorem processRaw_nil (metas : List (List DocMeta)) (dists : List (List ℚ)) (th : ℚ) :
    processRaw ⟨[], metas, dists⟩ th = [] := rfl

theorem processRaw_nil_metas (d0 : List String) (ds : List (List String))
    (dists : List (List ℚ)) (th : ℚ) :
    processRaw ⟨d0 :: ds, [], dists⟩ th = if d0 = [] then [] else [] := rfl

theorem processRaw_nil_dists (d0 : List String) (ds : List (List String))
    (m0 : List DocMeta) (ms : List (List DocMeta)) (th : ℚ) :
    processRaw ⟨d0 :: ds, m0 :: ms, []⟩ th = if d0 = [] then [] else [] := rfl

theorem processRaw_cons (d0 : List String) (ds : List (List String))
    (m0 : List DocMeta) (ms : List (List DocMeta))
    (t0 : List ℚ) (ts : List (List ℚ)) (th : ℚ) :
    processRaw ⟨d0 :: ds, m0 :: ms, t0 :: ts⟩ th =
      if d0 = [] then []
      else if m0 = [] ∨ t0 = [] then []
      else (d0.zip (m0.zip t0)).filterMap (fun x =>
        if th ≤ 1 - x.2.2 then some ⟨x.1, x.2.1, 1 - x.2.2⟩ else none) := rfl

end VectorStoreService

/-- Claim C1: for every query against a collection with parameters `top_k`
and `threshold` (threshold in its configured range, so non-negative), given
that the index reports at most `top_k` non-negative cosine distances, each
returned result's similarity equals `1 -` a reported distance, is at least
`threshold`, lies in `[0, 1]`, and at most `top_k` results are returned. -/
theorem claim_C1_query_similarity_bounds (raw : VectorStoreService.RawResults)
    (top_k : Nat) (threshold : ℚ)
    (hth : 0 ≤ threshold)
    (hdist : ∀ l ∈ raw.distances, ∀ d ∈ l, 0 ≤ d)
    (hlen : ∀ l ∈ raw.distances, l.length ≤ top_k) :
    (∀ r ∈ VectorStoreService.query (some raw) top_k threshold,
        (∃ l ∈ raw.distances, ∃ d ∈ l, r.similarity = 1 - d) ∧
        threshold ≤ r.similarity ∧ 0 ≤ r.similarity ∧ r.similarity ≤ 1) ∧
    (VectorStoreService.query (some raw) top_k threshold).length ≤ top_k := by
  obtain ⟨docs, metas, dists⟩ := raw
  rw [VectorStoreService.query_some]
  cases docs with
  | nil =>
    rw [VectorStoreService.processRaw_nil]
    exact ⟨fun r hr => absurd hr (List.not_mem_nil r), by simp⟩
  | cons d0 ds =>
    by_cases h0 : d0 = []
    · cases metas with
      | nil =>
        rw [VectorStoreService.processRaw_nil_metas, if_pos h0]
        exact ⟨fun r hr => absurd hr (List.not_mem_nil r), by simp⟩
      | cons m0 ms =>
        cases dists with
        | nil =>
          rw [VectorStoreService.processRaw_nil_dists, if_pos h0]
          exact ⟨fun r hr => absurd hr (List.not_mem_nil r), by simp⟩
        | cons t0 ts =>
          rw [VectorStoreService.processRaw_cons, if_pos h0]
          exact ⟨fun r hr => absurd hr (List.not_mem_nil r), by simp⟩
    · cases metas with
      | nil =>
        rw [VectorStoreService.processRaw_nil_metas, if_neg h0]
        exact ⟨fun r hr => absurd hr (List.not_mem_nil r), by simp⟩
      | cons m0 ms =>
        cases dists with
        | nil =>
          rw [VectorStoreService.processRaw_nil_dists, if_neg h0]
          exact ⟨fun r hr => absurd hr (List.not_mem_nil r), by simp⟩
        | cons t0 ts =>
          by_cases hmt : m0 = [] ∨ t0 = []
          · rw [VectorStoreService.processRaw_cons, if_neg h0, if_pos hmt]
            exact ⟨fun r hr => absurd hr (List.not_mem_nil r), by simp⟩
          · rw [VectorStoreService.processRaw_cons, if_neg h0, if_neg hmt]
            constructor
            · intro r hr
              obtain ⟨x, hx, hfx⟩ := List.mem_filterMap.mp hr
              obtain ⟨a, b, dq⟩ := x
              by_cases hif : threshold ≤ 1 - dq
              · rw [if_pos hif] at hfx
                have hr2 : r = ⟨a, b, 1 - dq⟩ := (Option.some_inj.mp hfx).symm
                have hdq : dq ∈ t0 := (List.of_mem_zip (List.of_mem_zip hx).2).2
                have hd0 : 0 ≤ dq := hdist t0 (List.mem_cons_self _ _) dq hdq
                refine ⟨⟨t0, List.mem_cons_self _ _, dq, hdq, by rw [hr2]⟩, ?_, ?_, ?_⟩
                · rw [hr2]; exact hif
                · rw [hr2]
                  show 0 ≤ 1 - dq
                  linarith
                · rw [hr2]
                  show 1 - dq ≤ 1
                  linarith
              · rw [if_neg hif] at hfx
                exact absurd hfx (by simp)
            · calc ((d0.zip (m0.zip t0)).filterMap _).length
                  ≤ (d0.zip (m0.zip t0)).length := List.length_filterMap_le _ _
                _ ≤ (m0.zip t0).length := by
                    rw [List.length_zip]
                    exact min_le_right _ _
                _ ≤ t0.length := by
                    rw [List.length_zip]
                    exact min_le_right _ _
                _ ≤ top_k := hlen t0 (List.mem_cons_self _ _)

/-- Concrete instantiation of `claim_C1_query_similarity_bounds`: one
reported distance `2/5` at threshold `3/5` and `top_k = 5`. -/
theorem claim_C1_witness :
    ((0 : ℚ) ≤ mkRat 3 5) ∧
    (∀ l ∈ [[mkRat 2 5]], ∀ d ∈ l, 0 ≤ d) ∧
    (∀ l ∈ [[mkRat 2 5]], l.length ≤ 5) ∧
    ((∀ r ∈ VectorStoreService.query
          (some ⟨[[("passage one")]], [[{}]], [[mkRat 2 5]]⟩) 5 (mkRat 3 5),
        (∃ l ∈ ([[mkRat 2 5]] : List (List ℚ)), ∃ d ∈ l, r.similarity = 1 - d) ∧
        mkRat 3 5 ≤ r.similarity ∧ 0 ≤ r.similarity ∧ r.similarity ≤ 1) ∧
      (VectorStoreService.query
          (some ⟨[[("passage one")]], [[{}]], [[mkRat 2 5]]⟩) 5 (mkRat 3 5)).length ≤ 5) :=
  ⟨by decide, by decide, by decide,
    claim_C1_query_similarity_bounds ⟨[[("passage one")]], [[{}]], [[mkRat 2 5]]⟩ 5 (mkRat 3 5)
      (by decide) (by decide) (by decide)⟩

/-- Claim C2: multi-collection retrieval queries each named collection with
the same `top_k` and `threshold`, stamps each result's metadata with its
source collection, and equals the concatenation sorted by similarity
descending and truncated to `top_k`; hence its output length never exceeds
`top_k` and it is sorted by similarity descending. -/
theorem claim_C2_retrieve_multi_collection (env : String → Option VectorStoreService.RawResults)
    (collections : List String) (top_k : Nat) (threshold : ℚ) :
    RetrievalService.retrieve_multi_collection env collections top_k threshold =
      (sortBySimDesc (collections.flatMap (fun c =>
        (RetrievalService.retrieve env top_k threshold c).map
          (RetrievalService.stamp c)))).take top_k ∧
    (RetrievalService.retrieve_multi_collection env collections top_k threshold).length ≤ top_k ∧
    (RetrievalService.retrieve_multi_collection env collections top_k threshold).Pairwise
      (fun a b => b.similarity ≤ a.similarity) ∧
    ∀ r ∈ RetrievalService.retrieve_multi_collection env collections top_k threshold,
      ∃ c ∈ collections, r.metadata.collection = some c ∧
        ∃ d ∈ RetrievalService.retrieve env top_k threshold c,
          r = RetrievalService.stamp c d := by
  have heq : RetrievalService.retrieve_multi_collection env collections top_k threshold =
      (sortBySimDesc (collections.flatMap (fun c =>
        (RetrievalService.retrieve env top_k threshold c).map
          (RetrievalService.stamp c)))).take top_k := by
    show (if (sortBySimDesc (collections.flatMap (fun c =>
        (RetrievalService.retrieve env top_k threshold c).map
          (RetrievalService.stamp c)))).length > top_k then _ else _) = _
    by_cases h : (sortBySimDesc (collections.flatMap (fun c =>
        (RetrievalService.retrieve env top_k threshold c).map
          (RetrievalService.stamp c)))).length > top_k
    · rw [if_pos h]
    · rw [if_neg h, List.take_of_length_le (by omega)]
  refine ⟨heq, ?_, ?_, ?_⟩
  · rw [heq, List.length_take]
    exact min_le_left _ _
  · rw [heq]
    have hs := List.sorted_insertionSort simGE (collections.flatMap (fun c =>
      (RetrievalService.retrieve env top_k threshold c).map (RetrievalService.stamp c)))
    exact (hs.sublist (List.take_sublist _ _)).imp (fun h => h)
  · intro r hr
    rw [heq] at hr
    have hr2 := List.mem_of_mem_take hr
    have hr3 := (List.mem_insertionSort simGE).mp hr2
    obtain ⟨c, hc, hmap⟩ := List.mem_flatMap.mp hr3
    obtain ⟨d, hd, hstamp⟩ := List.mem_map.mp hmap
    exact ⟨c, hc, by rw [← hstamp]; rfl, d, hd, hstamp.symm⟩

/-- Claim C3 counterexample: on the batch `["a", "a", "a_1"]` the suffixing
loop emits `["a", "a_1", "a_1"]`, so the ids used in the add call are not
pairwise distinct. -/
theorem claim_C3_counterexample :
    VectorDatabase.add_documents_ids [("a"), ("a"), ("a_1")] = [("a"), ("a_1"), ("a_1")] ∧
    ¬ (VectorDatabase.add_documents_ids [("a"), ("a"), ("a_1")]).Nodup := by
  exact ⟨by decide, by decide⟩

/-- Claim C3 amended: only collisions among the incoming ids are handled
(stored ids are never consulted); a deterministic occurrence-count suffix
is appended per duplicate, the number of ids equals the number of entries
submitted, and the resulting ids are pairwise distinct provided no incoming
id equals another incoming id followed by an underscore and a further
suffix. -/
theorem claim_C3_add_ids_amended (ids : List String)
    (H : ∀ x ∈ ids, ∀ y ∈ ids, ∀ s : String, x ≠ y ++ ("_") ++ s) :
    (VectorDatabase.add_documents_ids ids).length = ids.length ∧
    (VectorDatabase.add_documents_ids ids).Nodup := by
  unfold VectorDatabase.add_documents_ids
  by_cases hnd : ids.Nodup
  · rw [if_pos hnd]
    exact ⟨rfl, hnd⟩
  · rw [if_neg hnd]
    have hbridge : VectorDatabase.make_unique_go (fun _ => none) ids =
        VectorDatabase.spec_ids ids [] := by
      have h1 : (fun _ : String => (none : Option Nat)) = VectorDatabase.countsF [] := by
        funext x
        simp [VectorDatabase.countsF]
      rw [h1, VectorDatabase.make_unique_go_eq_spec]
    rw [hbridge]
    exact ⟨VectorDatabase.spec_ids_length ids [], VectorDatabase.spec_ids_nodup ids [] H⟩

/-- Concrete instantiation of `claim_C3_add_ids_amended` on the colliding
batch `["a", "a", "b"]`, which is stored as three pairwise distinct ids. -/
theorem claim_C3_witness :
    (∀ x ∈ [("a"), ("a"), ("b")], ∀ y ∈ [("a"), ("a"), ("b")], ∀ s : String,
      x ≠ y ++ ("_") ++ s) ∧
    (VectorDatabase.add_documents_ids [("a"), ("a"), ("b")]).length = 3 ∧
    (VectorDatabase.add_documents_ids [("a"), ("a"), ("b")]).Nodup := by
  have hH : ∀ x ∈ [("a"), ("a"), ("b")], ∀ y ∈ [("a"), ("a"), ("b")], ∀ s : String,
      x ≠ y ++ ("_") ++ s := by
    intro x hx y hy s heq
    have hx1 : x.length = 1 := by fin_cases hx <;> rfl
    have hy1 : y.length = 1 := by fin_cases hy <;> rfl
    have hlen := congrArg String.length heq
    rw [String.length_append, String.length_append] at hlen
    have hu : ("_" : String).length = 1 := rfl
    omega
  have h := claim_C3_add_ids_amended [("a"), ("a"), ("b")] hH
  exact ⟨hH, h.1.trans (by rfl), h.2⟩

/-- Claim C4: with empty retrieved context the synthesizer returns the
fixed response `"I Don't Know."` with an empty citation list, and the
result does not depend on the generative model (it is never invoked). -/
theorem claim_C4_empty_context_dont_know :
    ∀ (llm llm2 : String → String) (query : String),
      LLMService.generate_response llm query [] = LLMService.dont_know_response ∧
      LLMService.dont_know_response.text = ("I Don\x27t Know.") ∧
      LLMService.dont_know_response.sources = [] ∧
      LLMService.generate_response llm query [] = LLMService.generate_response llm2 query [] := by
  intro llm llm2 query
  exact ⟨rfl, rfl, rfl, rfl⟩

/-- Claim C5 counterexample: both supplied passages share `(source, page) =
("a", "")`; the answer cites both markers, yet two citations with the same
stored `(source, page)` key appear, because the dedup test compares the
stored page `None` with the raw falsy page `""`. -/
theorem claim_C5_counterexample :
    (LLMService.process_response_sources ("Document 1 and Document 2")
        [c5cexA, c5cexB]).map LLMService.citKey =
      [(("a"), PyVal.vnone), (("a"), PyVal.vnone)] := by
  decide

/-- Claim C5 amended: when every supplied page value is truthy or `None`
(the values the dedup comparison handles consistently), a passage
contributes a citation exactly when its positional marker occurs in the
answer text — every citation comes from a marker-matched passage, every
marker-matched passage is represented up to its `(source, page)` key — and
the citation keys are pairwise distinct.  For falsy non-`None` pages
(`""`, `0`) the dedup misfires, see the counterexample. -/
theorem claim_C5_marker_citations (resp : String) (ctx : List Doc)
    (Hgood : ∀ p ∈ ctx.enum, LLMService.goodPage p.2.metadata.page)
    (Hfound : ∃ p ∈ ctx.enum, LLMService.found resp p.1 p.2) :
    (∀ s ∈ LLMService.process_response_sources resp ctx,
        ∃ p ∈ ctx.enum, LLMService.found resp p.1 p.2 ∧
          s = LLMService.mk_source_info p.2) ∧
    (∀ p ∈ ctx.enum, LLMService.found resp p.1 p.2 →
        ∃ s ∈ LLMService.process_response_sources resp ctx,
          LLMService.dedupMatch p.2 s = true) ∧
    (LLMService.process_response_sources resp ctx).Pairwise
      (fun a b => LLMService.citKey a ≠ LLMService.citKey b) := by
  obtain ⟨p0, hp0, hf0⟩ := Hfound
  have hg0 : LLMService.goodPage p0.2.metadata.page := Hgood p0 hp0
  have hne : LLMService.cited_loop resp ctx.enum [] ≠ [] := by
    obtain ⟨s, hs, _⟩ :=
      LLMService.cited_loop_complete resp ctx.enum [] p0.1 p0.2 (by exact hp0) hg0 hf0
    intro hnil
    rw [hnil] at hs
    exact List.not_mem_nil s hs
  have heq := LLMService.process_sources_eq_loop hne
  refine ⟨?_, ?_, ?_⟩
  · intro s hs
    rw [heq] at hs
    rcases LLMService.cited_loop_sound resp ctx.enum [] s hs with h | h
    · exact absurd h (List.not_mem_nil s)
    · exact h
  · intro p hp hf
    rw [heq]
    exact LLMService.cited_loop_complete resp ctx.enum [] p.1 p.2 (by exact hp)
      (Hgood p hp) hf
  · rw [heq]
    exact LLMService.cited_loop_keys_distinct resp ctx.enum [] Hgood List.Pairwise.nil

/-- Concrete instantiation of `claim_C5_marker_citations`: the answer text
contains `"Document 1"` but not `"Document 2"`, so only the first passage
is cited. -/
theorem claim_C5_witness :
    (∀ p ∈ ([w5docA, w5docB] : List Doc).enum, LLMService.goodPage p.2.metadata.page) ∧
    (∃ p ∈ ([w5docA, w5docB] : List Doc).enum,
      LLMService.found ("As stated in Document 1, yes.") p.1 p.2) ∧
    ((∀ s ∈ LLMService.process_response_sources ("As stated in Document 1, yes.")
          [w5docA, w5docB],
        ∃ p ∈ ([w5docA, w5docB] : List Doc).enum,
          LLMService.found ("As stated in Document 1, yes.") p.1 p.2 ∧
            s = LLMService.mk_source_info p.2) ∧
      (∀ p ∈ ([w5docA, w5docB] : List Doc).enum,
          LLMService.found ("As stated in Document 1, yes.") p.1 p.2 →
          ∃ s ∈ LLMService.process_response_sources ("As stated in Document 1, yes.")
              [w5docA, w5docB],
            LLMService.dedupMatch p.2 s = true) ∧
      (LLMService.process_response_sources ("As stated in Document 1, yes.")
          [w5docA, w5docB]).Pairwise
        (fun a b => LLMService.citKey a ≠ LLMService.citKey b)) ∧
    LLMService.process_response_sources ("As stated in Document 1, yes.")
        [w5docA, w5docB] =
      [LLMService.mk_source_info w5docA] := by
  refine ⟨by decide, by decide,
    claim_C5_marker_citations ("As stated in Document 1, yes.") [w5docA, w5docB]
      (by decide) (by decide), by decide⟩

/-- Claim C6: when the context is non-empty and no passage's marker occurs
in the answer, the citation list is the top two passages by similarity (one
passage when only one is supplied), ordered by similarity descending, and
in particular non-empty. -/
theorem claim_C6_no_marker_fallback (resp : String) (ctx : List Doc)
    (Hnone : ∀ p ∈ ctx.enum, ¬ LLMService.found resp p.1 p.2)
    (Hne : ctx ≠ []) :
    LLMService.process_response_sources resp ctx =
      ((sortBySimDesc ctx).take 2).map LLMService.mk_source_info ∧
    LLMService.process_response_sources resp ctx ≠ [] ∧
    (LLMService.process_response_sources resp ctx).length = min 2 ctx.length ∧
    (LLMService.process_response_sources resp ctx).Pairwise
      (fun a b => b.similarity ≤ a.similarity) ∧
    (sortBySimDesc ctx).Perm ctx := by
  have hloop := LLMService.cited_loop_of_no_marker resp ctx.enum [] Hnone
  have heq := LLMService.process_sources_fallback hloop Hne
  have hlen : (LLMService.process_response_sources resp ctx).length = min 2 ctx.length := by
    rw [heq, List.length_map, List.length_take, sortBySimDesc, List.length_insertionSort]
  refine ⟨heq, ?_, hlen, ?_, List.perm_insertionSort simGE ctx⟩
  · intro hnil
    rw [hnil] at hlen
    have hpos : 0 < ctx.length := List.length_pos.mpr Hne
    simp at hlen
    omega
  · rw [heq, List.pairwise_map]
    have hs := List.sorted_insertionSort simGE ctx
    exact (hs.sublist (List.take_sublist _ _)).imp (fun h => h)

/-- Concrete instantiation of `claim_C6_no_marker_fallback`: no marker in
the answer, two passages with similarities `3/4` and `3/5`; the citation
list is exactly those two, in descending similarity order. -/
theorem claim_C6_witness :
    (∀ p ∈ ([w6docA, w6docB] : List Doc).enum,
      ¬ LLMService.found ("it depends") p.1 p.2) ∧
    ([w6docA, w6docB] : List Doc) ≠ [] ∧
    (LLMService.process_response_sources ("it depends") [w6docA, w6docB] =
        ((sortBySimDesc [w6docA, w6docB]).take 2).map LLMService.mk_source_info ∧
      LLMService.process_response_sources ("it depends") [w6docA, w6docB] ≠ [] ∧
      (LLMService.process_response_sources ("it depends") [w6docA, w6docB]).length =
        min 2 ([w6docA, w6docB] : List Doc).length ∧
      (LLMService.process_response_sources ("it depends") [w6docA, w6docB]).Pairwise
        (fun a b => b.similarity ≤ a.similarity) ∧
      (sortBySimDesc [w6docA, w6docB]).Perm [w6docA, w6docB]) ∧
    LLMService.process_response_sources ("it depends") [w6docA, w6docB] =
      [LLMService.mk_source_info w6docA, LLMService.mk_source_info w6docB] := by
  refine ⟨by decide, by decide,
    claim_C6_no_marker_fallback ("it depends") [w6docA, w6docB] (by decide) (by decide),
    by decide⟩

/-- Claim C7 counterexample: with `chunk_size = 5`, the fallback splitter
flushes a whitespace-only current chunk, whose `strip()` is the empty
string, so an empty chunk is produced. -/
theorem claim_C7_counterexample :
    ([] : List Char) ∈ TextSplitter.simple_split 5 c7Text ∧
    TextSplitter.simple_split 5 c7Text = [[], ['a', 'b', 'c']] := by
  exact ⟨by decide, by decide⟩

/-- Claim C7 amended: every chunk produced by the fallback splitter has at
most `chunk_size + min(100, chunk_size / 10)` characters (in fact at most
`chunk_size`); chunks can however be empty when the accumulated content is
entirely whitespace, see the counterexample. -/
theorem claim_C7_fallback_chunk_bound (chunk_size : Nat) (text : List Char)
    (hcs : 1 ≤ chunk_size) :
    ∀ c ∈ TextSplitter.simple_split chunk_size text,
      c.length ≤ chunk_size + min 100 (chunk_size / 10) := by
  intro c hc
  have h := TextSplitter.simple_split_chunk_le chunk_size text c hc
  omega

/-- Concrete instantiation of `claim_C7_fallback_chunk_bound` at
`chunk_size = 5` on the counterexample text. -/
theorem claim_C7_witness :
    1 ≤ 5 ∧
    ∀ c ∈ TextSplitter.simple_split 5 c7Text, c.length ≤ 5 + min 100 (5 / 10) :=
  ⟨by decide, claim_C7_fallback_chunk_bound 5 c7Text (by decide)⟩

/-- Claim C8: the vector-store query never raises: the exceptional outcome
(embedding failure or index failure) degrades to the empty result list, an
empty or missing collection (which ChromaDB materialises as an empty one)
yields the empty list, and the retrieval wrapper propagates the empty
list. -/
theorem claim_C8_query_degrades_to_empty :
    ∀ (top_k : Nat) (threshold : ℚ) (collection_name : String),
      VectorStoreService.query none top_k threshold = [] ∧
      VectorStoreService.query (some VectorStoreService.emptyRaw) top_k threshold = [] ∧
      VectorStoreService.query (some ⟨[], [], []⟩) top_k threshold = [] ∧
      RetrievalService.retrieve (fun _ => none) top_k threshold collection_name = [] := by
  intro top_k threshold collection_name
  exact ⟨rfl, rfl, rfl, rfl⟩

/-- Claim C9: `process_query` treats `top_k = 0` and `threshold = 0.0` as
absent, substituting the configured defaults `5` and `0.6`; in particular
calling it with `threshold = 0.0` (resp. `top_k = 0`) behaves identically
to omitting the argument. -/
theorem claim_C9_zero_parameters_defaulted :
    RAGService.pyOrInt (some 0) RAGService.RETRIEVAL_TOP_K = 5 ∧
    RAGService.pyOrInt none RAGService.RETRIEVAL_TOP_K = 5 ∧
    RAGService.pyOrQ (some 0) RAGService.RETRIEVAL_THRESHOLD = 3 / 5 ∧
    RAGService.pyOrQ none RAGService.RETRIEVAL_THRESHOLD = 3 / 5 ∧
    (∀ (retrieveF : String → Int → ℚ → String → List Doc) (llm : String → String)
        (query : String) (include_web : Bool) (threshold : Option ℚ),
      RAGService.process_query retrieveF llm query include_web (some 0) threshold =
        RAGService.process_query retrieveF llm query include_web none threshold) ∧
    (∀ (retrieveF : String → Int → ℚ → String → List Doc) (llm : String → String)
        (query : String) (include_web : Bool) (top_k : Option Int),
      RAGService.process_query retrieveF llm query include_web top_k (some (0 : ℚ)) =
        RAGService.process_query retrieveF llm query include_web top_k none) := by
  refine ⟨rfl, rfl, rfl, rfl, ?_, ?_⟩
  · intro retrieveF llm query include_web threshold
    rfl
  · intro retrieveF llm query include_web top_k
    rfl

/-- Claim C10: in the no-marker fallback path the returned sources are
exactly the first `min(2, |context|)` elements of the context sorted by
similarity descending, with no deduplication by `(source, page)`. -/
theorem claim_C10_fallback_exact_no_dedup (resp : String) (ctx : List Doc)
    (Hnone : ∀ p ∈ ctx.enum, ¬ LLMService.found resp p.1 p.2) :
    LLMService.process_response_sources resp ctx =
      ((sortBySimDesc ctx).take 2).map LLMService.mk_source_info ∧
    (LLMService.process_response_sources resp ctx).length = min 2 ctx.length := by
  by_cases hne : ctx = []
  · subst hne
    exact ⟨rfl, rfl⟩
  · have hloop := LLMService.cited_loop_of_no_marker resp ctx.enum [] Hnone
    have heq := LLMService.process_sources_fallback hloop hne
    refine ⟨heq, ?_⟩
    rw [heq, List.length_map, List.length_take, sortBySimDesc, List.length_insertionSort]

/-- Concrete instantiation of `claim_C10_fallback_exact_no_dedup`: two
passages with identical `(source, page)` and no marker in the answer both
appear as separate citations, with equal keys. -/
theorem claim_C10_witness :
    (∀ p ∈ ([w10docA, w10docB] : List Doc).enum,
      ¬ LLMService.found ("no markers here") p.1 p.2) ∧
    (LLMService.process_response_sources ("no markers here") [w10docA, w10docB] =
        ((sortBySimDesc [w10docA, w10docB]).take 2).map LLMService.mk_source_info ∧
      (LLMService.process_response_sources ("no markers here") [w10docA, w10docB]).length =
        min 2 ([w10docA, w10docB] : List Doc).length) ∧
    (LLMService.process_response_sources ("no markers here") [w10docA, w10docB]).map
        LLMService.citKey =
      [(("dup"), PyVal.vint 3), (("dup"), PyVal.vint 3)] := by
  refine ⟨by decide,
    claim_C10_fallback_exact_no_dedup ("no markers here") [w10docA, w10docB] (by decide),
    by decide⟩
